import Mathlib

set_option maxRecDepth 16000

/-!
# Verification of the Copilot Money byte-pattern decoder

Shallow embedding of `src/copilot_money_mcp/core/decoder.py` and
`src/copilot_money_mcp/core/database.py`.

Conventions of the embedding:
* a byte buffer (`bytes`) is a `List Nat` whose entries are byte values;
* a table file on disk is an `Option (List Nat)`: `some data` is a readable
  file with the given contents, `none` is a file whose `open`/`read` raises
  an `OSError` (unreadable file);
* a database directory is a `Directory`: whether `db_path.exists()` holds,
  together with the ordered list of `*.ldb` files produced by `glob`;
* Python floats are modelled exactly: an 8-byte little-endian IEEE-754
  encoding is decoded to its exact rational value (`none` for NaN/±Inf,
  whose magnitude comparison against the plausibility ceiling is false in
  Python just as the `none` branch rejects the candidate here);
* fallible operations return `Option`/`Except` instead of raising.
-/

/-! ## Byte-buffer primitives (`bytes.find`, slicing, containment) -/

/-- Python slice `data[a:b]` for `0 ≤ a ≤ b` (clamped at the end of the buffer). -/
def pySlice (data : List Nat) (a b : Nat) : List Nat :=
  (data.drop a).take (b - a)

/-- Worker for `bytes.find(pat, pos)`: first index `≥ pos` where `pat` occurs.
The fuel is an upper bound on the number of probed positions; `findFrom`
supplies enough for the whole buffer. -/
def findFromAux (data pat : List Nat) : Nat → Nat → Option Nat
  | _, 0 => none
  | pos, fuel+1 =>
    if pos + pat.length ≤ data.length then
      if pat.isPrefixOf (data.drop pos) then some pos
      else findFromAux data pat (pos+1) fuel
    else none

/-- Python `data.find(pat, pos)` for a nonempty pattern (`none` for `-1`). -/
def findFrom (data pat : List Nat) (pos : Nat) : Option Nat :=
  findFromAux data pat pos (data.length + 1 - pos)

/-- Python `pat in data` for a nonempty pattern. -/
def bcontains (data pat : List Nat) : Bool :=
  (findFrom data pat 0).isSome

/-- Worker for the repeated-`find` scan loops of `decode_transactions` /
`decode_accounts`: all occurrence indices, searching again from `idx + 1`
after each hit. -/
def findAllFromAux (data pat : List Nat) : Nat → Nat → List Nat
  | _, 0 => []
  | pos, fuel+1 =>
    match findFrom data pat pos with
    | none => []
    | some idx => idx :: findAllFromAux data pat (idx+1) fuel

/-- All anchor occurrences of `pat` in `data` from position `pos`, in the order
the `while True: idx = data.find(pat, search_pos)` loop visits them. -/
def findAllFrom (data pat : List Nat) (pos : Nat) : List Nat :=
  findAllFromAux data pat pos (data.length + 1)

/-! ## `decode_varint` (decoder.py lines 15-35) -/

/-- The `while pos < len(data)` loop of `decode_varint`, operating on the
remaining suffix `data[pos:]` of the buffer.  Mirrors
`result |= (byte & 0x7F) << shift` and the high-bit termination test. -/
def decodeVarintLoop : List Nat → Nat → Nat → Nat → Nat × Nat
  | [], pos, result, _ => (result, pos)
  | byte :: rest, pos, result, shift =>
    let result' := result ||| ((byte &&& 0x7F) <<< shift)
    if byte &&& 0x80 = 0 then (result', pos + 1)
    else decodeVarintLoop rest (pos + 1) result' (shift + 7)

/-- Embedding of `decode_varint(data, pos)`: decode a protobuf varint, returning
`(decoded_value, new_position)`. -/
def decode_varint (data : List Nat) (pos : Nat) : Nat × Nat :=
  decodeVarintLoop (data.drop pos) pos 0 0

/-- The integer denoted by a base-128 little-endian varint byte sequence
(low 7 bits of each byte, first byte least significant). -/
def valueOfBytes : List Nat → Nat
  | [] => 0
  | b :: bs => (b &&& 0x7F) + 128 * valueOfBytes bs

/-- A byte sequence is a complete varint encoding: every byte before the last
has its high bit set and the last byte has its high bit clear. -/
def ValidVarint : List Nat → Bool
  | [] => false
  | [b] => b &&& 0x80 = 0
  | b :: rest => (decide (b &&& 0x80 ≠ 0)) && ValidVarint rest

/-- Worker for the standard base-128 varint encoder; fuel `n + 1` is enough
for any `n`. -/
def encodeVarintAux : Nat → Nat → List Nat
  | 0, n => [n % 128]
  | fuel+1, n => if n < 128 then [n] else (n % 128 + 128) :: encodeVarintAux fuel (n / 128)

/-- Standard base-128 varint encoder (little-endian groups of 7 bits,
high bit marks continuation). -/
def encodeVarint (n : Nat) : List Nat :=
  encodeVarintAux (n+1) n

/-! ## UTF-8 decoding and printability (Python `bytes.decode("utf-8")`,
`str.isprintable()`) -/

/-- Strict UTF-8 decoding, as Python's `bytes.decode("utf-8")`: rejects
stray continuation bytes, overlong encodings, surrogates and code points
beyond U+10FFFF.  `none` models `UnicodeDecodeError`. -/
def utf8Decode : List Nat → Option (List Char)
  | [] => some []
  | b :: rest =>
    if b < 0x80 then
      (utf8Decode rest).map (fun cs => Char.ofNat b :: cs)
    else if b < 0xc2 then none
    else if b < 0xe0 then
      match rest with
      | b1 :: rest' =>
        if 0x80 ≤ b1 ∧ b1 < 0xc0 then
          (utf8Decode rest').map (fun cs => Char.ofNat ((b - 0xc0) * 0x40 + (b1 - 0x80)) :: cs)
        else none
      | [] => none
    else if b < 0xf0 then
      match rest with
      | b1 :: b2 :: rest' =>
        let lo1 := if b = 0xe0 then 0xa0 else 0x80
        let hi1 := if b = 0xed then 0xa0 else 0xc0
        if lo1 ≤ b1 ∧ b1 < hi1 ∧ 0x80 ≤ b2 ∧ b2 < 0xc0 then
          (utf8Decode rest').map (fun cs =>
            Char.ofNat ((b - 0xe0) * 0x1000 + (b1 - 0x80) * 0x40 + (b2 - 0x80)) :: cs)
        else none
      | _ => none
    else if b < 0xf5 then
      match rest with
      | b1 :: b2 :: b3 :: rest' =>
        let lo1 := if b = 0xf0 then 0x90 else 0x80
        let hi1 := if b = 0xf4 then 0x90 else 0xc0
        if lo1 ≤ b1 ∧ b1 < hi1 ∧ 0x80 ≤ b2 ∧ b2 < 0xc0 ∧ 0x80 ≤ b3 ∧ b3 < 0xc0 then
          (utf8Decode rest').map (fun cs =>
            Char.ofNat ((b - 0xf0) * 0x40000 + (b1 - 0x80) * 0x1000 +
              (b2 - 0x80) * 0x40 + (b3 - 0x80)) :: cs)
        else none
      | _ => none
    else none

/-- Python `str.isprintable()` per character: false for the "Other" and
"Separator" general categories except the ASCII space.  Exact on ASCII and
Latin-1; above U+2000 the table lists the separator/format code points
relevant to this development (no code point in that residue is produced by
any concrete buffer considered here). -/
def pyPrintableChar (c : Char) : Bool :=
  let n := c.toNat
  decide (0x20 ≤ n) &&
    !(decide (n = 0x7f) || decide (0x80 ≤ n ∧ n ≤ 0xa0) || decide (n = 0xad) ||
      decide (n = 0x1680) || decide (0x2000 ≤ n ∧ n ≤ 0x200f) ||
      decide (0x2028 ≤ n ∧ n ≤ 0x202f) || decide (n = 0x205f) ||
      decide (0x2060 ≤ n ∧ n ≤ 0x206f) || decide (n = 0x3000) || decide (n = 0xfeff))

/-- Python `str.isprintable()` (the empty string is printable). -/
def pyPrintable (cs : List Char) : Bool :=
  cs.all pyPrintableChar

/-! ## `extract_string_value` (decoder.py lines 38-68) -/

/-- The body of the `for i in range(len(after) - 3)` loop of
`extract_string_value` at index `i`: a candidate string if the two-byte tag
`8a 01` is at `i`, the length byte `after[i+2]` is plausible
(`0 < str_len < 100`), the bytes `after[i+3 : i+3+str_len]` decode as UTF-8
and the decoded text is printable. -/
def stringCandAt (after : List Nat) (i : Nat) : Option String :=
  if (after.drop i).take 2 = [0x8a, 0x01] then
    let strLen := after.getD (i+2) 0
    if 0 < strLen ∧ strLen < 100 then
      match utf8Decode ((after.drop (i+3)).take strLen) with
      | some cs => if pyPrintable cs then some (String.mk cs) else none
      | none => none
    else none
  else none

/-- Embedding of `extract_string_value(data, field_name)`: find the field name, then scan
the 50-byte window after it (`data[idx+len : min(len(data), idx+len+50)]`)
for the first plausible length-prefixed printable UTF-8 string.  The
`for`-loop-with-`return` is `findSome?` over `range (len(after) - 3)`. -/
def extract_string_value (data field : List Nat) : Option String :=
  match findFrom data field 0 with
  | none => none
  | some idx =>
    let after := (data.drop (idx + field.length)).take 50
    (List.range (after.length - 3)).findSome? (stringCandAt after)

/-! ## `extract_double_value` (decoder.py lines 71-95) -/

/-- Exact rational value of an 8-byte little-endian IEEE-754 binary64
encoding; `none` for NaN and ±Inf (exponent field 2047), whose subsequent
range check in `extract_double_value` is false in Python exactly as the
`none` branch skips the candidate here. -/
def decodeDoubleLE (bs : List Nat) : Option ℚ :=
  if bs.length = 8 then
    let bits : Nat := bs.foldr (fun b acc => acc * 256 + b % 256) 0
    let sign : Nat := bits / 2^63
    let expo : Nat := bits / 2^52 % 2^11
    let mant : Nat := bits % 2^52
    if expo = 2047 then none
    else
      let mag : ℚ :=
        if expo = 0 then mkRat mant (2^1074)
        else mkRat (((2^52 + mant) * 2^expo : ℕ) : ℤ) (2^1075)
      some (if sign = 1 then -mag else mag)
  else none

/-- Round-half-to-even of the fraction `n / d` (for `d > 0`) to an integer,
as Python's `round` on an exact value: `f = ⌊n/d⌋`, and the fractional part
`(n - f*d)/d` is compared against `1/2` via `r2 = 2*(n - f*d)` versus `d`. -/
def roundHalfEvenScaled (n d : ℤ) : ℤ :=
  let f := n.fdiv d
  let r2 := 2 * (n - f * d)
  if r2 < d then f
  else if d < r2 then f + 1
  else if f % 2 = 0 then f else f + 1

/-- Python `round(val, 2)` on the exact rational value of a float:
round-half-even of `100 * q` divided by `100`. -/
def round2 (q : ℚ) : ℚ :=
  mkRat (roundHalfEvenScaled (100 * q.num) q.den) 100

/-- The body of the `for i in range(len(chunk) - 9)` loop of
`extract_double_value` at index `i`: a candidate value if the tag byte
`0x19` is at `i` and the following 8 bytes decode to a double strictly
inside the plausibility ceiling `(-10_000_000, 10_000_000)`; the accepted
value is rounded to 2 decimal places. -/
def doubleCandAt (chunk : List Nat) (i : Nat) : Option ℚ :=
  if chunk.getD i 0 = 0x19 then
    match decodeDoubleLE ((chunk.drop (i+1)).take 8) with
    | some v => if -10000000 < v ∧ v < 10000000 then some (round2 v) else none
    | none => none
  else none

/-- Embedding of `extract_double_value(data, start_pos, max_search=20)`: scan the window
`data[start_pos : start_pos+max_search]` for a `0x19`-tagged plausible
little-endian double. -/
def extract_double_value (data : List Nat) (startPos : Nat) (maxSearch : Nat := 20) : Option ℚ :=
  let chunk := (data.drop startPos).take maxSearch
  (List.range (chunk.length - 9)).findSome? (doubleCandAt chunk)

/-! ## `extract_boolean_value` (decoder.py lines 98-120) -/

/-- The body of the `for i in range(len(after) - 2)` loop of
`extract_boolean_value`: on the first `0x08` tag byte the following byte is
interpreted as a boolean (`bool(after[i+1])`). -/
def boolCandAt (after : List Nat) (i : Nat) : Option Bool :=
  if after.getD i 0 = 0x08 then some (after.getD (i+1) 0 ≠ 0) else none

/-- Embedding of `extract_boolean_value(data, field_name)`. -/
def extract_boolean_value (data field : List Nat) : Option Bool :=
  match findFrom data field 0 with
  | none => none
  | some idx =>
    let after := (data.drop (idx + field.length)).take 20
    (List.range (after.length - 2)).findSome? (boolCandAt after)

/-! ## Record models (models/transaction.py, models/account.py,
models/category.py) -/

/-- Python truthiness of an `Optional[str]` (`None` and `""` are falsy). -/
def pyTruthy : Option String → Bool
  | none => false
  | some s => decide (s ≠ "")

/-- Python `a or b` on two `Optional[str]` values. -/
def pyOrStr (a b : Option String) : Option String :=
  if pyTruthy a then a else b

/-- Python `a or d` where `d` is a (truthy) string default. -/
def pyStrOr (a : Option String) (d : String) : String :=
  match a with
  | some s => if s = "" then d else s
  | none => d

/-- The `^\d{4}-\d{2}-\d{2}$` pydantic pattern on the `date` field.
(`\d` is modelled as an ASCII digit; Python's `str` regex additionally
accepts non-ASCII Unicode decimal digits, which no buffer considered in this
development produces.) -/
def validDateString (s : String) : Bool :=
  match s.data with
  | [y1, y2, y3, y4, h1, m1, m2, h2, d1, d2] =>
    y1.isDigit && y2.isDigit && y3.isDigit && y4.isDigit && (h1 == '-') &&
      m1.isDigit && m2.isDigit && (h2 == '-') && d1.isDigit && d2.isDigit
  | _ => false

/-- Model `Transaction` (models/transaction.py).  Only the fields the decoder sets
are carried; the remaining `Optional` fields of the pydantic model default
to `None` on every decoder-built record and never influence the claims. -/
structure Transaction where
  transaction_id : String
  amount : ℚ
  date : String
  name : Option String := none
  original_name : Option String := none
  account_id : Option String := none
  category_id : Option String := none
  iso_currency_code : Option String := none
  pending : Option Bool := none
  city : Option String := none
  region : Option String := none
deriving DecidableEq, Repr

/-- Property `Transaction.display_name`: `self.name or self.original_name or "Unknown"`. -/
def Transaction.display_name (t : Transaction) : String :=
  pyStrOr t.name (pyStrOr t.original_name "Unknown")

/-- Construction `Transaction(...)` under pydantic validation: `date` must match the
calendar pattern and `validate_amount_range` raises when
`abs(amount) > 10_000_000`.  `none` models the raised `ValidationError`
(caught by the `except` around the constructor in `decode_transactions`). -/
def mkTransaction (transaction_id : String) (amount : ℚ) (date : String)
    (name original_name account_id category_id iso_currency_code : Option String)
    (pending : Option Bool) (city region : Option String) : Option Transaction :=
  if validDateString date ∧ |amount| ≤ 10000000 then
    some ⟨transaction_id, amount, date, name, original_name, account_id,
      category_id, iso_currency_code, pending, city, region⟩
  else none

/-- Model `Account` (models/account.py).  As with `Transaction`, only the fields
the decoder sets are carried. -/
structure Account where
  account_id : String
  current_balance : ℚ
  name : Option String := none
  official_name : Option String := none
  mask : Option String := none
  account_type : Option String := none
  subtype : Option String := none
  institution_name : Option String := none
deriving DecidableEq, Repr

/-- Property `Account.display_name`: `self.name or self.official_name or "Unknown"`. -/
def Account.display_name (a : Account) : String :=
  pyStrOr a.name (pyStrOr a.official_name "Unknown")

/-- Model `Category` (models/category.py). -/
structure Category where
  category_id : String
  name : String
deriving DecidableEq, Repr

/-! ## Field-name byte patterns (the literal `bytes` in decoder.py) -/

def bName : List Nat := [0x0a, 0x04, 0x6e, 0x61, 0x6d, 0x65]
def bOriginalName : List Nat := [0x6f, 0x72, 0x69, 0x67, 0x69, 0x6e, 0x61, 0x6c, 0x5f, 0x6e, 0x61, 0x6d, 0x65]
def bOriginalDate : List Nat := [0x6f, 0x72, 0x69, 0x67, 0x69, 0x6e, 0x61, 0x6c, 0x5f, 0x64, 0x61, 0x74, 0x65]
def bCategoryId : List Nat := [0x63, 0x61, 0x74, 0x65, 0x67, 0x6f, 0x72, 0x79, 0x5f, 0x69, 0x64]
def bAccountId : List Nat := [0x61, 0x63, 0x63, 0x6f, 0x75, 0x6e, 0x74, 0x5f, 0x69, 0x64]
def bTransactionId : List Nat := [0x74, 0x72, 0x61, 0x6e, 0x73, 0x61, 0x63, 0x74, 0x69, 0x6f, 0x6e, 0x5f, 0x69, 0x64]
def bIsoCurrencyCode : List Nat := [0x69, 0x73, 0x6f, 0x5f, 0x63, 0x75, 0x72, 0x72, 0x65, 0x6e, 0x63, 0x79, 0x5f, 0x63, 0x6f, 0x64, 0x65]
def bPending : List Nat := [0x70, 0x65, 0x6e, 0x64, 0x69, 0x6e, 0x67]
def bCity : List Nat := [0x0a, 0x04, 0x63, 0x69, 0x74, 0x79]
def bRegion : List Nat := [0x0a, 0x06, 0x72, 0x65, 0x67, 0x69, 0x6f, 0x6e]
def bAmount : List Nat := [0x61, 0x6d, 0x6f, 0x75, 0x6e, 0x74]
def bAmountAnchor : List Nat := [0x0a, 0x06, 0x61, 0x6d, 0x6f, 0x75, 0x6e, 0x74]
def bCurrentBalance : List Nat := [0x63, 0x75, 0x72, 0x72, 0x65, 0x6e, 0x74, 0x5f, 0x62, 0x61, 0x6c, 0x61, 0x6e, 0x63, 0x65]
def bAccountsPath : List Nat := [0x2f, 0x61, 0x63, 0x63, 0x6f, 0x75, 0x6e, 0x74, 0x73, 0x2f]
def bOfficialName : List Nat := [0x6f, 0x66, 0x66, 0x69, 0x63, 0x69, 0x61, 0x6c, 0x5f, 0x6e, 0x61, 0x6d, 0x65]
def bType : List Nat := [0x0a, 0x04, 0x74, 0x79, 0x70, 0x65]
def bSubtype : List Nat := [0x73, 0x75, 0x62, 0x74, 0x79, 0x70, 0x65]
def bMask : List Nat := [0x0a, 0x04, 0x6d, 0x61, 0x73, 0x6b]
def bInstitutionName : List Nat := [0x69, 0x6e, 0x73, 0x74, 0x69, 0x74, 0x75, 0x74, 0x69, 0x6f, 0x6e, 0x5f, 0x6e, 0x61, 0x6d, 0x65]

/-! ## `decode_transactions` (decoder.py lines 123-214) -/

/-- Decoder error conditions: `FileNotFoundError` raised on a missing
directory (line 136/230), and an `OSError` escaping from `open`/`read` of a
table file (lines 141-142 / 235-236, which have no surrounding handler). -/
inductive DecodeError
  | notFound
  | readError
deriving DecidableEq, Repr

deriving instance DecidableEq for Except

/-- A database directory: `db_path.exists()` together with the ordered
result of `db_path.glob("*.ldb")`; each file is `some contents` or `none`
for a file whose read raises. -/
structure Directory where
  pathExists : Bool
  ldbFiles : List (Option (List Nat))
deriving DecidableEq, Repr

/-- Lines 157-200: handle one `\x0a\x06amount` anchor occurrence at `idx`:
extract the amount at `idx + 8`, skip zero/absent amounts, carve the
±1500-byte record window, extract the fields, apply the presence check
`if display_name and transaction_id and date` and construct the record. -/
def assembleTransactionAt (data : List Nat) (idx : Nat) : Option Transaction :=
  match extract_double_value data (idx + 8) 20 with
  | none => none
  | some amount =>
    if amount = 0 then none
    else
      let record := pySlice data (idx - 1500) (min data.length (idx + 1500))
      let name := extract_string_value record bName
      let original_name := extract_string_value record bOriginalName
      let date := extract_string_value record bOriginalDate
      let category_id := extract_string_value record bCategoryId
      let account_id := extract_string_value record bAccountId
      let transaction_id := extract_string_value record bTransactionId
      let iso_currency_code := extract_string_value record bIsoCurrencyCode
      let pending := extract_boolean_value record bPending
      let city := extract_string_value record bCity
      let region := extract_string_value record bRegion
      if pyTruthy (pyOrStr name original_name) ∧ pyTruthy transaction_id ∧ pyTruthy date then
        mkTransaction (transaction_id.getD "") amount (date.getD "") name original_name
          account_id category_id iso_currency_code pending city region
      else none

/-- Lines 144-200 for one file: the coarse content signature
(`b"amount" in data and b"original_name" in data`) followed by the anchor
scan loop. -/
def processTransactionFile (data : List Nat) : List Transaction :=
  if bcontains data bAmount ∧ bcontains data bOriginalName then
    (findAllFrom data bAmountAnchor 0).filterMap (assembleTransactionAt data)
  else []

/-- Lines 140-200: iterate the table files in glob order; reading a file
either yields its contents or raises (aborting the whole scan, there is no
handler around `open`/`read`). -/
def readAndScanTransactions : List (Option (List Nat)) → Except DecodeError (List Transaction)
  | [] => .ok []
  | none :: _ => .error .readError
  | some d :: rest =>
    match readAndScanTransactions rest with
    | .ok ts => .ok (processTransactionFile d ++ ts)
    | .error e => .error e

/-- The composite dedup key of lines 202-206: `(display_name, amount, date)`. -/
def txKey (t : Transaction) : String × ℚ × String :=
  (t.display_name, t.amount, t.date)

/-- The `seen`-set dedup loop of lines 202-209, keeping the first-encountered
record per key in encounter order. -/
def dedupTransactionsAux : List (String × ℚ × String) → List Transaction → List Transaction
  | _, [] => []
  | seen, t :: ts =>
    if txKey t ∈ seen then dedupTransactionsAux seen ts
    else t :: dedupTransactionsAux (txKey t :: seen) ts

/-- Lines 202-209: deduplicate by `(display_name, amount, date)`. -/
def dedupTransactions (ts : List Transaction) : List Transaction :=
  dedupTransactionsAux [] ts

/-- Lexicographic comparison of code-point sequences: Python's `<=` on
`str` values. -/
def charListLe : List Char → List Char → Bool
  | [], _ => true
  | _ :: _, [] => false
  | a :: as, b :: bs =>
    if a.toNat < b.toNat then true
    else if b.toNat < a.toNat then false
    else charListLe as bs

/-- Python `s <= t` on strings (code-point lexicographic). -/
def pyStrLe (s t : String) : Bool :=
  charListLe s.data t.data

/-- The comparison under `unique.sort(key=lambda x: x.date, reverse=True)`:
`a` may precede `b` when `b.date <= a.date` (dates descending). -/
def txDateDesc (a b : Transaction) : Prop :=
  pyStrLe b.date a.date = true

instance : DecidableRel txDateDesc :=
  fun a b => instDecidableEqBool (pyStrLe b.date a.date) true

/-- Line 212: Python's stable `list.sort` by date, descending.  `list.sort`
is a stable sort, and a stable sort's output is uniquely determined by the
(total, transitive) comparison, so the stable `insertionSort` realises it;
sortedness and stability are proved below. -/
def sortTransactionsByDateDesc (ts : List Transaction) : List Transaction :=
  ts.insertionSort txDateDesc

/-- Lines 133-209 of `decode_transactions`: the existence check and the full
multi-file scan, before the final dedup/sort. -/
def decodeTransactionsRaw (dir : Directory) : Except DecodeError (List Transaction) :=
  if dir.pathExists then readAndScanTransactions dir.ldbFiles
  else .error .notFound

/-- Embedding of `decode_transactions(db_path)`. -/
def decode_transactions (dir : Directory) : Except DecodeError (List Transaction) :=
  (decodeTransactionsRaw dir).map (fun ts => sortTransactionsByDateDesc (dedupTransactions ts))

/-! ## `decode_accounts` (decoder.py lines 217-294) -/

/-- Python `data.find(pat)` with its `-1` not-found convention. -/
def pyFindInt (data pat : List Nat) : ℤ :=
  match findFrom data pat 0 with
  | some i => (i : ℤ)
  | none => -1

/-- Lines 249-283: handle one `current_balance` anchor occurrence: carve the
±1000-byte window, extract the balance at `record.find(b"current_balance") + 15`,
skip absent balances, extract the fields and apply the presence check
`if account_id and (name or official_name)`.  `Account` has no field
validators, so the `try/except` around the constructor never fires. -/
def assembleAccountAt (data : List Nat) (idx : Nat) : Option Account :=
  let record := pySlice data (idx - 1000) (min data.length (idx + 1000))
  match extract_double_value record (pyFindInt record bCurrentBalance + 15).toNat 20 with
  | none => none
  | some balance =>
    let name := extract_string_value record bName
    let official_name := extract_string_value record bOfficialName
    let account_type := extract_string_value record bType
    let subtype := extract_string_value record bSubtype
    let mask := extract_string_value record bMask
    let institution_name := extract_string_value record bInstitutionName
    let account_id := extract_string_value record bAccountId
    if pyTruthy account_id ∧ pyTruthy (pyOrStr name official_name) then
      some ⟨account_id.getD "", balance, name, official_name, mask,
        account_type, subtype, institution_name⟩
    else none

/-- Lines 238-283 for one file: the `b"/accounts/"` signature filter and the
anchor scan loop. -/
def processAccountFile (data : List Nat) : List Account :=
  if bcontains data bAccountsPath then
    (findAllFrom data bCurrentBalance 0).filterMap (assembleAccountAt data)
  else []

/-- Lines 234-283: iterate the table files in glob order. -/
def readAndScanAccounts : List (Option (List Nat)) → Except DecodeError (List Account)
  | [] => .ok []
  | none :: _ => .error .readError
  | some d :: rest =>
    match readAndScanAccounts rest with
    | .ok as => .ok (processAccountFile d ++ as)
    | .error e => .error e

/-- The composite dedup key of lines 285-289: `(display_name, mask)`. -/
def accKey (a : Account) : String × Option String :=
  (a.display_name, a.mask)

/-- The `seen`-set dedup loop of lines 285-292. -/
def dedupAccountsAux : List (String × Option String) → List Account → List Account
  | _, [] => []
  | seen, a :: as =>
    if accKey a ∈ seen then dedupAccountsAux seen as
    else a :: dedupAccountsAux (accKey a :: seen) as

/-- Lines 285-292: deduplicate by `(display_name, mask)`; accounts are not
re-sorted. -/
def dedupAccounts (as : List Account) : List Account :=
  dedupAccountsAux [] as

/-- Lines 227-232 of `decode_accounts`: existence check and multi-file scan. -/
def decodeAccountsRaw (dir : Directory) : Except DecodeError (List Account) :=
  if dir.pathExists then readAndScanAccounts dir.ldbFiles
  else .error .notFound

/-- Embedding of `decode_accounts(db_path)`. -/
def decode_accounts (dir : Directory) : Except DecodeError (List Account) :=
  (decodeAccountsRaw dir).map dedupAccounts

/-! ## `CopilotDatabase` (database.py) -/

/-- Python `str.lower()` (exact on the ASCII range reachable here). -/
def pyLower (s : String) : String :=
  ⟨s.data.map Char.toLower⟩

/-- Python `needle in hay` on strings. -/
def strContains (hay needle : String) : Bool :=
  decide (needle.data <:+: hay.data)

/-- The optional filter arguments of `CopilotDatabase.get_transactions`. -/
structure TxFilters where
  start_date : Option String := none
  end_date : Option String := none
  category : Option String := none
  merchant : Option String := none
  account_id : Option String := none
  min_amount : Option ℚ := none
  max_amount : Option ℚ := none
  limit : Nat := 1000
deriving Repr

/-- Lines 80-117 of `get_transactions`: the successive list filters applied
to a copy of the cached list, then `result[:limit]`. -/
def applyTxFilters (f : TxFilters) (ts : List Transaction) : List Transaction :=
  let r0 := ts
  let r1 := if pyTruthy f.start_date then
      r0.filter (fun t => pyStrLe (f.start_date.getD "") t.date) else r0
  let r2 := if pyTruthy f.end_date then
      r1.filter (fun t => pyStrLe t.date (f.end_date.getD "")) else r1
  let r3 := if pyTruthy f.category then
      r2.filter (fun t => pyTruthy t.category_id &&
        strContains (pyLower (t.category_id.getD "")) (pyLower (f.category.getD ""))) else r2
  let r4 := if pyTruthy f.merchant then
      r3.filter (fun t => strContains (pyLower t.display_name) (pyLower (f.merchant.getD ""))) else r3
  let r5 := if pyTruthy f.account_id then
      r4.filter (fun t => t.account_id == f.account_id) else r4
  let r6 : List Transaction := match f.min_amount with
    | some m => r5.filter (fun t => decide (m ≤ t.amount))
    | none => r5
  let r7 : List Transaction := match f.max_amount with
    | some m => r6.filter (fun t => decide (t.amount ≤ m))
    | none => r6
  r7.take f.limit

/-- The `seen_categories` loop of `get_categories` (lines 185-197). -/
def uniqueCategoriesAux : List String → List Transaction → List Category
  | _, [] => []
  | seen, t :: ts =>
    if pyTruthy t.category_id ∧ t.category_id.getD "" ∉ seen then
      ⟨t.category_id.getD "", t.category_id.getD ""⟩ ::
        uniqueCategoriesAux (t.category_id.getD "" :: seen) ts
    else uniqueCategoriesAux seen ts

/-- Unique categories of a transaction list, in first-appearance order. -/
def uniqueCategories (ts : List Transaction) : List Category :=
  uniqueCategoriesAux [] ts

/-- State of `CopilotDatabase`: the path plus the two lazily-populated caches
(`self._transactions`, `self._accounts`). -/
structure CopilotDatabase where
  db_path : Directory
  txCache : Option (List Transaction) := none
  accCache : Option (List Account) := none
deriving Repr

/-- The `if self._transactions is None: self._transactions = decode_transactions(...)`
lazy load shared by `get_transactions`, `search_transactions` and
`get_categories`; a decode failure propagates and leaves the cache empty. -/
def loadTransactions (db : CopilotDatabase) :
    Except DecodeError (List Transaction × CopilotDatabase) :=
  match db.txCache with
  | some ts => .ok (ts, db)
  | none =>
    match decode_transactions db.db_path with
    | .ok ts => .ok (ts, { db with txCache := some ts })
    | .error e => .error e

/-- The corresponding lazy load of `self._accounts` in `get_accounts`. -/
def loadAccounts (db : CopilotDatabase) :
    Except DecodeError (List Account × CopilotDatabase) :=
  match db.accCache with
  | some as => .ok (as, db)
  | none =>
    match decode_accounts db.db_path with
    | .ok as => .ok (as, { db with accCache := some as })
    | .error e => .error e

/-- Method `CopilotDatabase.get_transactions(...)` (lines 49-117); the state after
the call is returned alongside the result. -/
def get_transactions (db : CopilotDatabase) (f : TxFilters) :
    Except DecodeError (List Transaction × CopilotDatabase) :=
  match loadTransactions db with
  | .ok (ts, db') => .ok (applyTxFilters f ts, db')
  | .error e => .error e

/-- Method `CopilotDatabase.search_transactions(query, limit=50)` (lines 119-143). -/
def search_transactions (db : CopilotDatabase) (query : String) (limit : Nat := 50) :
    Except DecodeError (List Transaction × CopilotDatabase) :=
  match loadTransactions db with
  | .ok (ts, db') =>
    .ok ((ts.filter (fun t =>
      strContains (pyLower t.display_name) (pyLower query))).take limit, db')
  | .error e => .error e

/-- Method `CopilotDatabase.get_accounts(account_type=None)` (lines 145-171). -/
def get_accounts (db : CopilotDatabase) (account_type : Option String := none) :
    Except DecodeError (List Account × CopilotDatabase) :=
  match loadAccounts db with
  | .ok (as, db') =>
    .ok ((if pyTruthy account_type then
      as.filter (fun a => pyTruthy a.account_type &&
        strContains (pyLower (a.account_type.getD "")) (pyLower (account_type.getD "")))
      else as), db')
  | .error e => .error e

/-- Method `CopilotDatabase.get_categories()` (lines 173-198). -/
def get_categories (db : CopilotDatabase) :
    Except DecodeError (List Category × CopilotDatabase) :=
  match loadTransactions db with
  | .ok (ts, db') => .ok (uniqueCategories ts, db')
  | .error e => .error e

/-! ## Concrete table files used as witnesses -/

/-- A table file holding one transaction record (`name "Shop"`,
`original_name "Ori"`, `original_date "2024-01-02"`, `transaction_id "t1"`)
with two overlapping amount anchors, both carrying the little-endian IEEE-754
encoding of `12.34`. -/
def fileA : List Nat := [0x0a, 0x04, 0x6e, 0x61, 0x6d, 0x65, 0x8a, 0x01, 0x04, 0x53, 0x68, 0x6f, 0x70, 0x6f, 0x72, 0x69, 0x67, 0x69, 0x6e, 0x61, 0x6c, 0x5f, 0x6e, 0x61, 0x6d, 0x65, 0x8a, 0x01, 0x03, 0x4f, 0x72, 0x69, 0x6f, 0x72, 0x69, 0x67, 0x69, 0x6e, 0x61, 0x6c, 0x5f, 0x64, 0x61, 0x74, 0x65, 0x8a, 0x01, 0x0a, 0x32, 0x30, 0x32, 0x34, 0x2d, 0x30, 0x31, 0x2d, 0x30, 0x32, 0x74, 0x72, 0x61, 0x6e, 0x73, 0x61, 0x63, 0x74, 0x69, 0x6f, 0x6e, 0x5f, 0x69, 0x64, 0x8a, 0x01, 0x02, 0x74, 0x31, 0x0a, 0x06, 0x61, 0x6d, 0x6f, 0x75, 0x6e, 0x74, 0x19, 0xae, 0x47, 0xe1, 0x7a, 0x14, 0xae, 0x28, 0x40, 0x0a, 0x06, 0x61, 0x6d, 0x6f, 0x75, 0x6e, 0x74, 0x19, 0xae, 0x47, 0xe1, 0x7a, 0x14, 0xae, 0x28, 0x40, 0x00]

/-- A table file holding one transaction record (`"Cafe"`, `"2024-03-04"`,
`"t2"`, amount `12.34`) with a single amount anchor. -/
def fileB : List Nat := [0x0a, 0x04, 0x6e, 0x61, 0x6d, 0x65, 0x8a, 0x01, 0x04, 0x43, 0x61, 0x66, 0x65, 0x6f, 0x72, 0x69, 0x67, 0x69, 0x6e, 0x61, 0x6c, 0x5f, 0x6e, 0x61, 0x6d, 0x65, 0x8a, 0x01, 0x03, 0x4f, 0x72, 0x62, 0x6f, 0x72, 0x69, 0x67, 0x69, 0x6e, 0x61, 0x6c, 0x5f, 0x64, 0x61, 0x74, 0x65, 0x8a, 0x01, 0x0a, 0x32, 0x30, 0x32, 0x34, 0x2d, 0x30, 0x33, 0x2d, 0x30, 0x34, 0x74, 0x72, 0x61, 0x6e, 0x73, 0x61, 0x63, 0x74, 0x69, 0x6f, 0x6e, 0x5f, 0x69, 0x64, 0x8a, 0x01, 0x02, 0x74, 0x32, 0x0a, 0x06, 0x61, 0x6d, 0x6f, 0x75, 0x6e, 0x74, 0x19, 0xae, 0x47, 0xe1, 0x7a, 0x14, 0xae, 0x28, 0x40, 0x00]

/-- A table file whose single amount anchor carries the IEEE-754 predecessor
of `10_000_000` (`0x416312CFFFFFFFFF`, ≈ `9999999.999999998`): it passes the
strict `-10_000_000 < val < 10_000_000` plausibility test but rounds to
exactly `10_000_000.0`. -/
def fileC10 : List Nat := [0x0a, 0x04, 0x6e, 0x61, 0x6d, 0x65, 0x8a, 0x01, 0x03, 0x42, 0x69, 0x67, 0x6f, 0x72, 0x69, 0x67, 0x69, 0x6e, 0x61, 0x6c, 0x5f, 0x6e, 0x61, 0x6d, 0x65, 0x8a, 0x01, 0x03, 0x4f, 0x72, 0x63, 0x6f, 0x72, 0x69, 0x67, 0x69, 0x6e, 0x61, 0x6c, 0x5f, 0x64, 0x61, 0x74, 0x65, 0x8a, 0x01, 0x0a, 0x32, 0x30, 0x32, 0x34, 0x2d, 0x30, 0x35, 0x2d, 0x30, 0x36, 0x74, 0x72, 0x61, 0x6e, 0x73, 0x61, 0x63, 0x74, 0x69, 0x6f, 0x6e, 0x5f, 0x69, 0x64, 0x8a, 0x01, 0x02, 0x74, 0x33, 0x0a, 0x06, 0x61, 0x6d, 0x6f, 0x75, 0x6e, 0x74, 0x19, 0xff, 0xff, 0xff, 0xff, 0xcf, 0x12, 0x63, 0x41, 0x00]

/-- A table file holding one account record (`name "Bank"`,
`official_name "Off"`, `account_id "a1"`, `mask "4321"`, balance `250.5`). -/
def accFile : List Nat := [0x2f, 0x61, 0x63, 0x63, 0x6f, 0x75, 0x6e, 0x74, 0x73, 0x2f, 0x0a, 0x04, 0x6e, 0x61, 0x6d, 0x65, 0x8a, 0x01, 0x04, 0x42, 0x61, 0x6e, 0x6b, 0x6f, 0x66, 0x66, 0x69, 0x63, 0x69, 0x61, 0x6c, 0x5f, 0x6e, 0x61, 0x6d, 0x65, 0x8a, 0x01, 0x03, 0x4f, 0x66, 0x66, 0x61, 0x63, 0x63, 0x6f, 0x75, 0x6e, 0x74, 0x5f, 0x69, 0x64, 0x8a, 0x01, 0x02, 0x61, 0x31, 0x0a, 0x04, 0x6d, 0x61, 0x73, 0x6b, 0x8a, 0x01, 0x04, 0x34, 0x33, 0x32, 0x31, 0x63, 0x75, 0x72, 0x72, 0x65, 0x6e, 0x74, 0x5f, 0x62, 0x61, 0x6c, 0x61, 0x6e, 0x63, 0x65, 0x19, 0x00, 0x00, 0x00, 0x00, 0x00, 0x50, 0x6f, 0x40, 0x00]

/-- The transaction record decoded from `fileA`. -/
def txA : Transaction :=
  { transaction_id := "t1", amount := mkRat 617 50, date := "2024-01-02",
    name := some "Shop", original_name := some "Ori" }

/-- The transaction record decoded from `fileB`. -/
def txB : Transaction :=
  { transaction_id := "t2", amount := mkRat 617 50, date := "2024-03-04",
    name := some "Cafe", original_name := some "Orb" }

/-- The transaction record decoded from `fileC10`, with amount exactly
`10_000_000`. -/
def txC10 : Transaction :=
  { transaction_id := "t3", amount := 10000000, date := "2024-05-06",
    name := some "Big", original_name := some "Orc" }

/-- The account record decoded from `accFile`. -/
def accBank : Account :=
  { account_id := "a1", current_balance := mkRat 501 2, name := some "Bank",
    official_name := some "Off", mask := some "4321" }

/-- A two-file directory decoding to `[txB, txA]` (via candidates
`[txA, txA, txB]`). -/
def demoDir : Directory := ⟨true, [some fileA, some fileB]⟩

/-- A directory decoding to the single ceiling-amount transaction `txC10`. -/
def c10Dir : Directory := ⟨true, [some fileC10]⟩

/-- A one-file directory of accounts decoding to `[accBank]`. -/
def accDir : Directory := ⟨true, [some accFile]⟩

/-! ## Specification-side formulations of the string-extraction scan
(spec §4.2), for comparison with `extract_string_value` -/

/-- Modelled from the spec's words (§4.2): scan the window for the two-byte
tag, read the following byte as a length `L`, accept only `0 < L < 100`,
then decode **exactly** `L` subsequent bytes as UTF-8 and return the first
plausible printable result.  "Exactly `L`" requires `L` bytes to be
available. -/
def scanWindowExact : List Nat → Option String
  | [] => none
  | a :: rest =>
    match rest with
    | r1 :: strLen :: tail =>
      (if a = 0x8a ∧ r1 = 0x01 ∧ 0 < strLen ∧ strLen < 100 ∧ strLen ≤ tail.length then
        match utf8Decode (tail.take strLen) with
        | some cs => if pyPrintable cs then some (String.mk cs) else none
        | none => none
      else none).orElse (fun _ => scanWindowExact rest)
    | _ => scanWindowExact rest

/-- Spec reading `stringScanExact data field`: the spec-§4.2 reading of
`extract_string_value` in which exactly `L` bytes are decoded. -/
def stringScanExact (data field : List Nat) : Option String :=
  match findFrom data field 0 with
  | none => none
  | some idx => scanWindowExact ((data.drop (idx + field.length)).take 50)

/-- The amended reading of the scan: a candidate position needs the tag, the
length byte and at least one following byte (the code's loop bound
`range(len(after) - 3)`), and **up to** `L` bytes are decoded, truncated at
the end of the 50-byte window. -/
def scanWindowUpTo : List Nat → Option String
  | [] => none
  | a :: rest =>
    match rest with
    | r1 :: strLen :: b :: tail =>
      (if a = 0x8a ∧ r1 = 0x01 ∧ 0 < strLen ∧ strLen < 100 then
        match utf8Decode ((b :: tail).take strLen) with
        | some cs => if pyPrintable cs then some (String.mk cs) else none
        | none => none
      else none).orElse (fun _ => scanWindowUpTo rest)
    | _ => scanWindowUpTo rest

/-- Amended reading `stringScanUpTo data field`: the amended window scan. -/
def stringScanUpTo (data field : List Nat) : Option String :=
  match findFrom data field 0 with
  | none => none
  | some idx => scanWindowUpTo ((data.drop (idx + field.length)).take 50)

/-- The buffer of the spec's concrete string-extraction example: field name
`"amount"` followed by `8a 01`, length byte `05` and `"hello"`. -/
def helloBuf : List Nat :=
  [0x61, 0x6d, 0x6f, 0x75, 0x6e, 0x74, 0x8a, 0x01, 0x05, 0x68, 0x65, 0x6c, 0x6c, 0x6f]

/-- A buffer on which the code and the "exactly `L` bytes" reading disagree:
field `"f"`, tag `8a 01`, length byte `05`, but only the two bytes `"ab"`
remain. -/
def truncBuf : List Nat := [0x66, 0x8a, 0x01, 0x05, 0x61, 0x62]

/-- The spec's concrete double-extraction buffer: tag byte `0x19` followed by
the little-endian IEEE-754 encoding of `12.34` (plus a trailing byte so the
tag position is inside the scanned range). -/
def doubleBuf : List Nat := [0x19, 0xae, 0x47, 0xe1, 0x7a, 0x14, 0xae, 0x28, 0x40, 0x00]

/-- A buffer whose only `0x19`-tagged value is `12_340_000.0`, at and above
the plausibility ceiling: it is rejected and the window is exhausted. -/
def bigBuf : List Nat := [0x19, 0x00, 0x00, 0x00, 0x00, 0x64, 0x89, 0x67, 0x41, 0x00]

/-- A buffer with a rejected over-ceiling value at position 0 followed by a
plausible `12.34` at position 9: scanning continues past the rejection. -/
def mixBuf : List Nat := [0x19, 0x00, 0x00, 0x00, 0x00, 0x64, 0x89, 0x67, 0x41, 0x19, 0xae, 0x47, 0xe1, 0x7a, 0x14, 0xae, 0x28, 0x40, 0x00]

/-! # Helper lemmas -/

theorem readAndScanTransactions_error_of_none {files : List (Option (List Nat))}
    (h : none ∈ files) : readAndScanTransactions files = .error .readError := by
  induction files with
  | nil => cases h
  | cons f rest ih =>
    cases f with
    | none => rfl
    | some d =>
      have : none ∈ rest := by simpa using h
      simp [readAndScanTransactions, ih this]

theorem readAndScanAccounts_error_of_none {files : List (Option (List Nat))}
    (h : none ∈ files) : readAndScanAccounts files = .error .readError := by
  induction files with
  | nil => cases h
  | cons f rest ih =>
    cases f with
    | none => rfl
    | some d =>
      have : none ∈ rest := by simpa using h
      simp [readAndScanAccounts, ih this]

theorem readAndScanTransactions_ok {files : List (Option (List Nat))}
    (h : ∀ f ∈ files, f ≠ none) : ∃ ts, readAndScanTransactions files = .ok ts := by
  induction files with
  | nil => exact ⟨[], rfl⟩
  | cons f rest ih =>
    obtain ⟨ts, hts⟩ := ih (fun g hg => h g (List.mem_cons_of_mem f hg))
    cases f with
    | none => cases h none (List.mem_cons_self _ _) rfl
    | some d => exact ⟨processTransactionFile d ++ ts, by simp [readAndScanTransactions, hts]⟩

theorem readAndScanAccounts_ok {files : List (Option (List Nat))}
    (h : ∀ f ∈ files, f ≠ none) : ∃ as, readAndScanAccounts files = .ok as := by
  induction files with
  | nil => exact ⟨[], rfl⟩
  | cons f rest ih =>
    obtain ⟨as, has⟩ := ih (fun g hg => h g (List.mem_cons_of_mem f hg))
    cases f with
    | none => cases h none (List.mem_cons_self _ _) rfl
    | some d => exact ⟨processAccountFile d ++ as, by simp [readAndScanAccounts, has]⟩

theorem readAndScanTransactions_cons_skip {d : List Nat} {files : List (Option (List Nat))}
    (h : ¬(bcontains d bAmount = true ∧ bcontains d bOriginalName = true)) :
    readAndScanTransactions (some d :: files) = readAndScanTransactions files := by
  have hp : processTransactionFile d = [] := by
    unfold processTransactionFile
    rw [if_neg h]
  cases hrec : readAndScanTransactions files with
  | ok ts => simp [readAndScanTransactions, hrec, hp]
  | error e => simp [readAndScanTransactions, hrec]

theorem readAndScanAccounts_cons_skip {d : List Nat} {files : List (Option (List Nat))}
    (h : ¬bcontains d bAccountsPath = true) :
    readAndScanAccounts (some d :: files) = readAndScanAccounts files := by
  have hp : processAccountFile d = [] := by
    unfold processAccountFile
    rw [if_neg h]
  cases hrec : readAndScanAccounts files with
  | ok as => simp [readAndScanAccounts, hrec, hp]
  | error e => simp [readAndScanAccounts, hrec]

/-! # Claims -/

/-- C3: if the database directory does not exist, both `decode_transactions`
and `decode_accounts` fail with the NotFound condition, performing no
partial work: the error is returned whatever the directory's files hold, so
no file is read and no records are produced. -/
theorem decode_notFound_of_missing_dir :
    ∀ files : List (Option (List Nat)),
      decode_transactions ⟨false, files⟩ = .error .notFound ∧
      decode_accounts ⟨false, files⟩ = .error .notFound :=
  fun _ => ⟨rfl, rfl⟩

/-- C4 counterexample: a directory whose single table file is unreadable
makes `decode_transactions` (and `decode_accounts`) abort with a read error,
rather than skipping the file and continuing like the empty directory scan
does — refuting "an unreadable table file is silently skipped ... no failure
on a single file aborts the overall scan". -/
theorem unreadable_file_aborts_scan :
    decode_transactions ⟨true, [none]⟩ = .error .readError ∧
    decode_transactions ⟨true, [none]⟩ ≠ decode_transactions ⟨true, []⟩ ∧
    decode_accounts ⟨true, [none]⟩ = .error .readError := by
  refine ⟨rfl, ?_, rfl⟩
  decide

/-- C4 (amended): an empty table file, or any file lacking the expected
anchor byte signature, is silently skipped and the scan continues with the
remaining files; but a file whose read raises aborts the whole scan with the
read error, and a scan over readable files never fails. -/
theorem file_skip_and_read_failure :
    (∀ (d : List Nat) (files : List (Option (List Nat))),
      ¬(bcontains d bAmount = true ∧ bcontains d bOriginalName = true) →
      decode_transactions ⟨true, some d :: files⟩ = decode_transactions ⟨true, files⟩) ∧
    (∀ (d : List Nat) (files : List (Option (List Nat))),
      ¬bcontains d bAccountsPath = true →
      decode_accounts ⟨true, some d :: files⟩ = decode_accounts ⟨true, files⟩) ∧
    (∀ files : List (Option (List Nat)), none ∈ files →
      decode_transactions ⟨true, files⟩ = .error .readError ∧
      decode_accounts ⟨true, files⟩ = .error .readError) ∧
    (∀ files : List (Option (List Nat)), (∀ f ∈ files, f ≠ none) →
      (∃ l, decode_transactions ⟨true, files⟩ = .ok l) ∧
      (∃ l, decode_accounts ⟨true, files⟩ = .ok l)) := by
  refine ⟨?_, ?_, ?_, ?_⟩
  · intro d files h
    simp [decode_transactions, decodeTransactionsRaw, readAndScanTransactions_cons_skip h]
  · intro d files h
    simp [decode_accounts, decodeAccountsRaw, readAndScanAccounts_cons_skip h]
  · intro files h
    constructor
    · simp [decode_transactions, decodeTransactionsRaw, Except.map,
        readAndScanTransactions_error_of_none h]
    · simp [decode_accounts, decodeAccountsRaw, Except.map,
        readAndScanAccounts_error_of_none h]
  · intro files h
    obtain ⟨ts, hts⟩ := readAndScanTransactions_ok h
    obtain ⟨as, has⟩ := readAndScanAccounts_ok h
    exact ⟨⟨sortTransactionsByDateDesc (dedupTransactions ts),
        by simp [decode_transactions, decodeTransactionsRaw, Except.map, hts]⟩,
      ⟨dedupAccounts as,
        by simp [decode_accounts, decodeAccountsRaw, Except.map, has]⟩⟩

/-- C4 amended witness: the empty file `some []` is skipped (the scan over
`[some []]` equals the scan over `[]`), and the concrete unreadable
directory aborts. -/
theorem file_skip_and_read_failure_witness :
    decode_transactions ⟨true, [some []]⟩ = decode_transactions ⟨true, []⟩ ∧
    decode_transactions ⟨true, [none]⟩ = .error .readError ∧
    decode_accounts ⟨true, [none]⟩ = .error .readError :=
  ⟨file_skip_and_read_failure.1 [] [] (by decide),
    (file_skip_and_read_failure.2.2.1 [none] (by simp)).1,
    (file_skip_and_read_failure.2.2.1 [none] (by simp)).2⟩

/-- C9: per `CopilotDatabase` object the decoded collection is computed at
most once: with a populated cache every query method answers from the cache
and returns the object unchanged, for any `db` — in particular whatever
`db.db_path` holds, so the decoder is not consulted; with an empty cache the
first successful call runs the decoder and stores exactly its result. -/
theorem copilotDatabase_caches_decode :
    (∀ (db : CopilotDatabase) (f : TxFilters) (ts : List Transaction),
      db.txCache = some ts →
      get_transactions db f = .ok (applyTxFilters f ts, db)) ∧
    (∀ (db : CopilotDatabase) (f : TxFilters) (ts : List Transaction),
      db.txCache = none → decode_transactions db.db_path = .ok ts →
      get_transactions db f = .ok (applyTxFilters f ts, { db with txCache := some ts })) ∧
    (∀ (db : CopilotDatabase) (q : String) (lim : Nat) (ts : List Transaction),
      db.txCache = some ts →
      search_transactions db q lim =
        .ok ((ts.filter (fun t => strContains (pyLower t.display_name) (pyLower q))).take lim, db)) ∧
    (∀ (db : CopilotDatabase) (q : String) (lim : Nat) (ts : List Transaction),
      db.txCache = none → decode_transactions db.db_path = .ok ts →
      search_transactions db q lim =
        .ok ((ts.filter (fun t => strContains (pyLower t.display_name) (pyLower q))).take lim,
          { db with txCache := some ts })) ∧
    (∀ (db : CopilotDatabase) (ts : List Transaction),
      db.txCache = some ts →
      get_categories db = .ok (uniqueCategories ts, db)) ∧
    (∀ (db : CopilotDatabase) (ts : List Transaction),
      db.txCache = none → decode_transactions db.db_path = .ok ts →
      get_categories db = .ok (uniqueCategories ts, { db with txCache := some ts })) ∧
    (∀ (db : CopilotDatabase) (aty : Option String) (as : List Account),
      db.accCache = some as →
      get_accounts db aty =
        .ok ((if pyTruthy aty then
          as.filter (fun a => pyTruthy a.account_type &&
            strContains (pyLower (a.account_type.getD "")) (pyLower (aty.getD "")))
          else as), db)) ∧
    (∀ (db : CopilotDatabase) (aty : Option String) (as : List Account),
      db.accCache = none → decode_accounts db.db_path = .ok as →
      get_accounts db aty =
        .ok ((if pyTruthy aty then
          as.filter (fun a => pyTruthy a.account_type &&
            strContains (pyLower (a.account_type.getD "")) (pyLower (aty.getD "")))
          else as), { db with accCache := some as })) := by
  refine ⟨?_, ?_, ?_, ?_, ?_, ?_, ?_, ?_⟩
  · intro db f ts h
    simp [get_transactions, loadTransactions, h]
  · intro db f ts h hd
    simp [get_transactions, loadTransactions, h, hd]
  · intro db q lim ts h
    simp [search_transactions, loadTransactions, h]
  · intro db q lim ts h hd
    simp [search_transactions, loadTransactions, h, hd]
  · intro db ts h
    simp [get_categories, loadTransactions, h]
  · intro db ts h hd
    simp [get_categories, loadTransactions, h, hd]
  · intro db aty as h
    simp [get_accounts, loadAccounts, h]
  · intro db aty as h hd
    simp [get_accounts, loadAccounts, h, hd]

/-- C9 witness: on a fresh object over `demoDir` the first call decodes and
stores `[txB, txA]`; on the resulting object a second call reuses the cache,
leaves it unchanged, and does so whatever path the object now holds. -/
theorem copilotDatabase_caches_decode_witness :
    get_transactions ⟨demoDir, none, none⟩ {} =
      .ok (applyTxFilters {} [txB, txA], ⟨demoDir, some [txB, txA], none⟩) ∧
    get_transactions ⟨⟨false, []⟩, some [txB, txA], none⟩ {} =
      .ok (applyTxFilters {} [txB, txA], ⟨⟨false, []⟩, some [txB, txA], none⟩) :=
  ⟨copilotDatabase_caches_decode.2.1 ⟨demoDir, none, none⟩ {} [txB, txA] rfl (by decide),
    copilotDatabase_caches_decode.1 ⟨⟨false, []⟩, some [txB, txA], none⟩ {} [txB, txA] rfl⟩

theorem and127_of_lt {b : Nat} (h : b < 128) : b &&& 0x7F = b := by
  have h2 : b &&& (2 ^ 7 - 1) = b := Nat.and_pow_two_sub_one_of_lt_two_pow (by simpa using h)
  simpa using h2

theorem and128_of_lt {b : Nat} (h : b < 128) : b &&& 0x80 = 0 := by
  have h2 : b &&& 2 ^ 7 = (b.testBit 7).toNat * 2 ^ 7 := Nat.and_two_pow b 7
  rw [Nat.testBit_lt_two_pow (by simpa using h)] at h2
  simpa using h2

theorem add128_and127 {r : Nat} (h : r < 128) : (r + 128) &&& 0x7F = r := by
  have h2 : (r + 128) &&& (2 ^ 7 - 1) = (r + 128) % 2 ^ 7 :=
    Nat.and_pow_two_sub_one_eq_mod _ 7
  simpa [Nat.add_mod_right, Nat.mod_eq_of_lt h] using h2

theorem add128_and128 {r : Nat} (h : r < 128) : (r + 128) &&& 0x80 ≠ 0 := by
  have hb : (2 ^ 7 * 1 + r).testBit 7 = true := by
    rw [Nat.testBit_mul_pow_two_add 1 (by simpa using h) 7]
    simp
  have h2 : (r + 128) &&& 2 ^ 7 = ((r + 128).testBit 7).toNat * 2 ^ 7 := Nat.and_two_pow _ 7
  have he : 2 ^ 7 * 1 + r = r + 128 := by omega
  rw [he] at hb
  rw [hb] at h2
  simp only [Bool.toNat_true, one_mul] at h2
  norm_num at h2
  simp [h2]

theorem shift_combine (x v s : Nat) (hx : x < 128) :
    (x <<< s) ||| (v <<< (s + 7)) = (x + 128 * v) <<< s := by
  rw [Nat.shiftLeft_eq, Nat.shiftLeft_eq, Nat.shiftLeft_eq]
  have hb : x * 2 ^ s < 2 ^ (s + 7) := by
    have h2 : x * 2 ^ s < 128 * 2 ^ s :=
      Nat.mul_lt_mul_of_lt_of_le hx (Nat.le_refl _) (Nat.pos_pow_of_pos s (by omega))
    calc x * 2 ^ s < 128 * 2 ^ s := h2
      _ = 2 ^ (s + 7) := by rw [pow_add]; ring
  calc x * 2 ^ s ||| v * 2 ^ (s + 7)
      = 2 ^ (s + 7) * v ||| x * 2 ^ s := by rw [Nat.or_comm, Nat.mul_comm]
    _ = 2 ^ (s + 7) * v + x * 2 ^ s := (Nat.mul_add_lt_is_or hb v).symm
    _ = (x + 128 * v) * 2 ^ s := by rw [pow_add]; ring

theorem decodeVarintLoop_cons (byte : Nat) (rest : List Nat) (pos res shift : Nat) :
    decodeVarintLoop (byte :: rest) pos res shift =
      if byte &&& 0x80 = 0 then (res ||| ((byte &&& 0x7F) <<< shift), pos + 1)
      else decodeVarintLoop rest (pos + 1) (res ||| ((byte &&& 0x7F) <<< shift)) (shift + 7) :=
  rfl

theorem decodeVarintLoop_spec :
    ∀ enc : List Nat, ValidVarint enc = true →
    ∀ (post : List Nat) (pos res shift : Nat),
    decodeVarintLoop (enc ++ post) pos res shift =
      (res ||| (valueOfBytes enc <<< shift), pos + enc.length) := by
  intro enc
  induction enc with
  | nil => intro h; cases h
  | cons b rest ih =>
    intro h post pos res shift
    cases rest with
    | nil =>
      have hb : b &&& 0x80 = 0 := by simpa [ValidVarint] using h
      simp [decodeVarintLoop, hb, valueOfBytes]
    | cons c rest' =>
      have h' : (b &&& 0x80 ≠ 0) ∧ ValidVarint (c :: rest') = true := by
        simpa [ValidVarint] using h
      have hband : b &&& 0x7F < 128 :=
        Nat.lt_of_le_of_lt (Nat.and_le_right) (by omega)
      rw [List.cons_append, decodeVarintLoop_cons, if_neg h'.1,
        ih h'.2 post (pos + 1) _ (shift + 7)]
      refine Prod.ext ?_ ?_
      · show res ||| (b &&& 0x7F) <<< shift ||| valueOfBytes (c :: rest') <<< (shift + 7) =
          res ||| valueOfBytes (b :: c :: rest') <<< shift
        rw [Nat.or_assoc, shift_combine _ _ _ hband]
        rfl
      · show pos + 1 + (c :: rest').length = pos + (b :: c :: rest').length
        simp
        omega

theorem encodeVarintAux_ne_nil (fuel n : Nat) : encodeVarintAux fuel n ≠ [] := by
  cases fuel with
  | zero => simp [encodeVarintAux]
  | succ fuel =>
    by_cases h : n < 128 <;> simp [encodeVarintAux, h]

theorem encodeVarintAux_spec :
    ∀ fuel n, n ≤ fuel →
    ValidVarint (encodeVarintAux fuel n) = true ∧
      valueOfBytes (encodeVarintAux fuel n) = n := by
  intro fuel
  induction fuel with
  | zero =>
    intro n hn
    have : n = 0 := Nat.le_zero.mp hn
    subst this
    exact ⟨by decide, by decide⟩
  | succ fuel ih =>
    intro n hn
    by_cases h : n < 128
    · refine ⟨?_, ?_⟩
      · simp [encodeVarintAux, h, ValidVarint, and128_of_lt h]
      · simp [encodeVarintAux, h, valueOfBytes, and127_of_lt h]
    · have h128 : 128 ≤ n := Nat.not_lt.mp h
      have hdiv : n / 128 ≤ fuel := by
        have : n / 128 < n := Nat.div_lt_self (by omega) (by omega)
        omega
      obtain ⟨hv, hval⟩ := ih (n / 128) hdiv
      have hr : n % 128 < 128 := Nat.mod_lt _ (by omega)
      refine ⟨?_, ?_⟩
      · cases htail : encodeVarintAux fuel (n / 128) with
        | nil => exact absurd htail (encodeVarintAux_ne_nil _ _)
        | cons t ts =>
          rw [htail] at hv
          simp [encodeVarintAux, h, htail, ValidVarint, add128_and128 hr, hv]
      · simp [encodeVarintAux, h, valueOfBytes, add128_and127 hr, hval]
        omega

/-- C8: on any buffer in which a complete varint encoding starts at `pos`
(continuation bytes with the high bit set, terminated by the first byte with
a clear high bit), `decode_varint` returns the base-128 value of that
encoding and consumes exactly through the terminating byte; re-encoding the
decoded integer with the standard base-128 encoder and decoding again yields
the same integer. -/
theorem decode_varint_roundtrip (data : List Nat) (pos : Nat) (enc post : List Nat)
    (hsplit : data.drop pos = enc ++ post) (hvalid : ValidVarint enc = true) :
    decode_varint data pos = (valueOfBytes enc, pos + enc.length) ∧
    decode_varint (encodeVarint (valueOfBytes enc)) 0 =
      (valueOfBytes enc, (encodeVarint (valueOfBytes enc)).length) := by
  constructor
  · unfold decode_varint
    rw [hsplit, decodeVarintLoop_spec enc hvalid post pos 0 0]
    simp
  · obtain ⟨hv, hval⟩ :=
      encodeVarintAux_spec (valueOfBytes enc + 1) (valueOfBytes enc) (Nat.le_succ _)
    unfold decode_varint encodeVarint
    rw [List.drop_zero]
    have h2 := decodeVarintLoop_spec (encodeVarintAux (valueOfBytes enc + 1) (valueOfBytes enc))
      hv [] 0 0 0
    rw [List.append_nil] at h2
    rw [h2, hval]
    simp

/-- C8 witness: the two-byte varint `96 01` (with a trailing byte) decodes
to `150`, consuming both bytes, and `150` re-encodes and decodes to itself. -/
theorem decode_varint_roundtrip_witness :
    decode_varint [0x96, 0x01, 0x55] 0 = (150, 2) ∧
    decode_varint (encodeVarint 150) 0 = (150, (encodeVarint 150).length) := by
  have h := decode_varint_roundtrip [0x96, 0x01, 0x55] 0 [0x96, 0x01] [0x55]
    (by decide) (by decide)
  have hv : valueOfBytes [0x96, 0x01] = 150 := by decide
  exact ⟨by simpa [hv] using h.1, by simpa [hv] using h.2⟩

theorem charListLe_refl : ∀ as : List Char, charListLe as as = true := by
  intro as
  induction as with
  | nil => rfl
  | cons a as ih => simp [charListLe, ih]

theorem charListLe_total : ∀ as bs : List Char,
    charListLe as bs = true ∨ charListLe bs as = true := by
  intro as
  induction as with
  | nil => intro bs; left; rfl
  | cons a as ih =>
    intro bs
    cases bs with
    | nil => right; rfl
    | cons b bs =>
      by_cases h1 : a.toNat < b.toNat
      · left; simp [charListLe, h1]
      · by_cases h2 : b.toNat < a.toNat
        · right; simp [charListLe, h2]
        · rcases ih bs with h | h
          · left; simp [charListLe, h1, h2, h]
          · right; simp [charListLe, h1, h2, h]

theorem charListLe_trans : ∀ as bs cs : List Char,
    charListLe as bs = true → charListLe bs cs = true → charListLe as cs = true := by
  intro as
  induction as with
  | nil => intro bs cs _ _; rfl
  | cons a as ih =>
    intro bs cs h1 h2
    cases bs with
    | nil => simp [charListLe] at h1
    | cons b bs =>
      cases cs with
      | nil => simp [charListLe] at h2
      | cons c cs =>
        by_cases hba : b.toNat < a.toNat
        · simp [charListLe, Nat.lt_asymm hba, hba] at h1
        · by_cases hcb : c.toNat < b.toNat
          · simp [charListLe, Nat.lt_asymm hcb, hcb] at h2
          · by_cases hab : a.toNat < b.toNat
            · have hac : a.toNat < c.toNat := by omega
              simp [charListLe, hac]
            · by_cases hbc : b.toNat < c.toNat
              · have hac : a.toNat < c.toNat := by omega
                simp [charListLe, hac]
              · have hnac : ¬a.toNat < c.toNat := by omega
                have hnca : ¬c.toNat < a.toNat := by omega
                simp [charListLe, hab, hba] at h1
                simp [charListLe, hbc, hcb] at h2
                simp [charListLe, hnac, hnca, ih bs cs h1 h2]

theorem dedupTransactionsAux_cons (seen : List (String × ℚ × String))
    (t : Transaction) (ts : List Transaction) :
    dedupTransactionsAux seen (t :: ts) =
      if txKey t ∈ seen then dedupTransactionsAux seen ts
      else t :: dedupTransactionsAux (txKey t :: seen) ts :=
  rfl

theorem mem_dedupTransactionsAux :
    ∀ {ts : List Transaction} {seen : List (String × ℚ × String)} {t : Transaction},
    t ∈ dedupTransactionsAux seen ts →
    txKey t ∉ seen ∧ ts.find? (fun c => decide (txKey c = txKey t)) = some t := by
  intro ts
  induction ts with
  | nil => intro seen t ht; cases ht
  | cons c rest ih =>
    intro seen t ht
    rw [dedupTransactionsAux_cons] at ht
    by_cases h : txKey c ∈ seen
    · rw [if_pos h] at ht
      obtain ⟨hns, hfind⟩ := ih ht
      have hne : ¬(txKey c = txKey t) := fun he => hns (he ▸ h)
      refine ⟨hns, ?_⟩
      rw [List.find?_cons_of_neg _ (by simpa using hne)]
      exact hfind
    · rw [if_neg h] at ht
      rcases List.mem_cons.mp ht with he | hm
      · subst he
        exact ⟨h, List.find?_cons_of_pos _ (by simp)⟩
      · obtain ⟨hns, hfind⟩ := ih hm
        have hne : ¬(txKey t = txKey c) := fun he => hns (by rw [he]; exact List.mem_cons_self _ _)
        have hns' : txKey t ∉ seen := fun hx => hns (List.mem_cons_of_mem _ hx)
        refine ⟨hns', ?_⟩
        rw [List.find?_cons_of_neg _ (by simpa using fun he => hne he.symm)]
        exact hfind

theorem dedupTransactionsAux_keys_nodup :
    ∀ (ts : List Transaction) (seen : List (String × ℚ × String)),
    ((dedupTransactionsAux seen ts).map txKey).Nodup := by
  intro ts
  induction ts with
  | nil => intro seen; simp [dedupTransactionsAux]
  | cons c rest ih =>
    intro seen
    rw [dedupTransactionsAux_cons]
    by_cases h : txKey c ∈ seen
    · rw [if_pos h]; exact ih seen
    · rw [if_neg h]
      simp only [List.map_cons, List.nodup_cons]
      refine ⟨?_, ih _⟩
      intro hmem
      obtain ⟨u, hu, hk⟩ := List.mem_map.mp hmem
      exact (mem_dedupTransactionsAux hu).1 (by rw [hk]; exact List.mem_cons_self _ _)

theorem dedupTransactionsAux_complete :
    ∀ {ts : List Transaction} {c : Transaction}, c ∈ ts →
    ∀ seen : List (String × ℚ × String),
    txKey c ∈ seen ∨ ∃ u ∈ dedupTransactionsAux seen ts, txKey u = txKey c := by
  intro ts
  induction ts with
  | nil => intro c hc; cases hc
  | cons d rest ih =>
    intro c hc seen
    rw [dedupTransactionsAux_cons]
    by_cases h : txKey d ∈ seen
    · rw [if_pos h]
      rcases List.mem_cons.mp hc with he | hm
      · subst he; exact Or.inl h
      · exact ih hm seen
    · rw [if_neg h]
      rcases List.mem_cons.mp hc with he | hm
      · subst he; exact Or.inr ⟨_, List.mem_cons_self _ _, rfl⟩
      · rcases ih hm (txKey d :: seen) with hs | ⟨u, hu, hk⟩
        · rcases List.mem_cons.mp hs with he | hs'
          · exact Or.inr ⟨d, List.mem_cons_self _ _, he.symm⟩
          · exact Or.inl hs'
        · exact Or.inr ⟨u, List.mem_cons_of_mem _ hu, hk⟩

theorem decode_transactions_eq_sorted_dedup {dir : Directory} {cs l : List Transaction}
    (h1 : decodeTransactionsRaw dir = .ok cs)
    (h2 : decode_transactions dir = .ok l) :
    l = sortTransactionsByDateDesc (dedupTransactions cs) := by
  rw [decode_transactions, h1] at h2
  simpa [Except.map] using h2.symm

/-- C1: the list returned by `decode_transactions` carries pairwise-distinct
`(display_name, amount, date)` composite keys; every returned record is the
first candidate with its key in file/anchor scan order (`cs` is the
pre-dedup candidate list); and every candidate's key is represented in the
returned list. -/
theorem decode_transactions_dedup_first (dir : Directory) (cs l : List Transaction)
    (t c : Transaction)
    (h1 : decodeTransactionsRaw dir = .ok cs)
    (h2 : decode_transactions dir = .ok l)
    (ht : t ∈ l) (hc : c ∈ cs) :
    ((l.map txKey).Nodup) ∧
    cs.find? (fun x => decide (txKey x = txKey t)) = some t ∧
    ∃ u ∈ l, txKey u = txKey c := by
  have hl := decode_transactions_eq_sorted_dedup h1 h2
  subst hl
  have hperm : List.Perm (sortTransactionsByDateDesc (dedupTransactions cs))
      (dedupTransactions cs) :=
    List.perm_insertionSort _ _
  refine ⟨?_, ?_, ?_⟩
  · exact ((hperm.map txKey).nodup_iff).mpr (dedupTransactionsAux_keys_nodup cs [])
  · exact (mem_dedupTransactionsAux (hperm.mem_iff.mp ht)).2
  · rcases dedupTransactionsAux_complete hc [] with hs | ⟨u, hu, hk⟩
    · cases hs
    · exact ⟨u, hperm.symm.mem_iff.mp hu, hk⟩

/-- C1 witness: over the two-file demo directory, the returned list
`[txB, txA]` has distinct keys, `txB` is the first candidate with its key in
the candidate list `[txA, txA, txB]`, and the duplicated key of `txA` is
still represented. -/
theorem decode_transactions_dedup_first_witness :
    (([txB, txA].map txKey).Nodup) ∧
    [txA, txA, txB].find? (fun x => decide (txKey x = txKey txB)) = some txB ∧
    ∃ u ∈ [txB, txA], txKey u = txKey txA :=
  decode_transactions_dedup_first demoDir [txA, txA, txB] [txB, txA] txB txA
    (by decide) (by decide) (by decide) (by decide)

/-- C2: the list returned by `decode_transactions` is non-increasing by the
`date` field, and for every date `d` the records carrying `d` appear in
exactly their post-deduplication encounter order (the sort is stable). -/
theorem decode_transactions_sorted_stable (dir : Directory) (cs l : List Transaction)
    (d : String)
    (h1 : decodeTransactionsRaw dir = .ok cs)
    (h2 : decode_transactions dir = .ok l) :
    l.Pairwise txDateDesc ∧
    l.filter (fun t => decide (t.date = d)) =
      (dedupTransactions cs).filter (fun t => decide (t.date = d)) := by
  have hl := decode_transactions_eq_sorted_dedup h1 h2
  subst hl
  haveI : IsTotal Transaction txDateDesc :=
    ⟨fun a b => charListLe_total b.date.data a.date.data⟩
  haveI : IsTrans Transaction txDateDesc :=
    ⟨fun _ _ _ hab hbc => charListLe_trans _ _ _ hbc hab⟩
  constructor
  · exact List.sorted_insertionSort txDateDesc (dedupTransactions cs)
  · set p : Transaction → Bool := fun t => decide (t.date = d) with hp
    set c : List Transaction := (dedupTransactions cs).filter p with hcdef
    have hmemd : ∀ x ∈ c, x.date = d := by
      intro x hx
      have := List.of_mem_filter hx
      simpa [hp] using this
    have hcpair : c.Pairwise txDateDesc := by
      apply List.pairwise_of_forall_mem_list
      intro x hx y hy
      show pyStrLe y.date x.date = true
      rw [hmemd x hx, hmemd y hy]
      exact charListLe_refl _
    have hsub : List.Sublist c (dedupTransactions cs) := List.filter_sublist _
    have hstable : List.Sublist c (sortTransactionsByDateDesc (dedupTransactions cs)) :=
      List.sublist_insertionSort hcpair hsub
    have hcf : c.filter p = c :=
      List.filter_eq_self.mpr (fun x hx => by simp [hp, hmemd x hx])
    have hsubf : List.Sublist c
        ((sortTransactionsByDateDesc (dedupTransactions cs)).filter p) := by
      rw [← hcf]
      exact hstable.filter p
    have hperm : List.Perm ((sortTransactionsByDateDesc (dedupTransactions cs)).filter p) c :=
      (List.perm_insertionSort txDateDesc (dedupTransactions cs)).filter p
    exact (hsubf.eq_of_length hperm.length_eq.symm).symm

/-- C2 witness: the demo directory's result `[txB, txA]` is date-descending,
and its records dated `2024-01-02` equal the post-dedup sublist with that
date. -/
theorem decode_transactions_sorted_stable_witness :
    ([txB, txA] : List Transaction).Pairwise txDateDesc ∧
    [txB, txA].filter (fun t => decide (t.date = "2024-01-02")) =
      (dedupTransactions [txA, txA, txB]).filter (fun t => decide (t.date = "2024-01-02")) :=
  decode_transactions_sorted_stable demoDir [txA, txA, txB] [txB, txA] "2024-01-02"
    (by decide) (by decide)

theorem assembleTransactionAt_some_inv {data : List Nat} {idx : Nat} {t : Transaction}
    (h : assembleTransactionAt data idx = some t) :
    pyTruthy (pyOrStr
      (extract_string_value (pySlice data (idx - 1500) (min data.length (idx + 1500))) bName)
      (extract_string_value (pySlice data (idx - 1500) (min data.length (idx + 1500)))
        bOriginalName)) = true ∧
    pyTruthy (extract_string_value (pySlice data (idx - 1500) (min data.length (idx + 1500)))
      bTransactionId) = true ∧
    pyTruthy (extract_string_value (pySlice data (idx - 1500) (min data.length (idx + 1500)))
      bOriginalDate) = true := by
  unfold assembleTransactionAt at h
  generalize hrec : pySlice data (idx - 1500) (min data.length (idx + 1500)) = rec at h ⊢
  rcases hd : extract_double_value data (idx + 8) 20 with _ | amount
  · rw [hd] at h; exact Option.noConfusion h
  · rw [hd] at h
    simp only [] at h
    by_cases hz : amount = 0
    · rw [if_pos hz] at h; exact Option.noConfusion h
    · rw [if_neg hz] at h
      by_cases hcond : pyTruthy (pyOrStr (extract_string_value rec bName)
            (extract_string_value rec bOriginalName)) = true ∧
          pyTruthy (extract_string_value rec bTransactionId) = true ∧
          pyTruthy (extract_string_value rec bOriginalDate) = true
      · exact hcond
      · rw [if_neg hcond] at h; exact Option.noConfusion h

theorem assembleAccountAt_some_inv {data : List Nat} {idx : Nat} {a : Account}
    (h : assembleAccountAt data idx = some a) :
    pyTruthy (extract_string_value (pySlice data (idx - 1000) (min data.length (idx + 1000)))
      bAccountId) = true ∧
    pyTruthy (pyOrStr
      (extract_string_value (pySlice data (idx - 1000) (min data.length (idx + 1000))) bName)
      (extract_string_value (pySlice data (idx - 1000) (min data.length (idx + 1000)))
        bOfficialName)) = true := by
  unfold assembleAccountAt at h
  generalize hrec : pySlice data (idx - 1000) (min data.length (idx + 1000)) = rec at h ⊢
  simp only [] at h
  rcases hd : extract_double_value rec (pyFindInt rec bCurrentBalance + 15).toNat 20
    with _ | balance
  · rw [hd] at h; exact Option.noConfusion h
  · rw [hd] at h
    simp only [] at h
    by_cases hcond : pyTruthy (extract_string_value rec bAccountId) = true ∧
        pyTruthy (pyOrStr (extract_string_value rec bName)
          (extract_string_value rec bOfficialName)) = true
    · exact hcond
    · rw [if_neg hcond] at h; exact Option.noConfusion h

/-- C7: the record assembler accepts a candidate only when the minimal
presence invariant of its kind holds, and rejects it silently otherwise —
a Transaction needs a resolvable display name (`name or original_name`
truthy), a truthy transaction identifier and a truthy date; an Account needs
a truthy account identifier and one of name/official name; and over a
readable directory rejection never raises: both decoders return `ok`. -/
theorem assembler_presence_invariant :
    (∀ (data : List Nat) (idx : Nat) (t : Transaction),
      assembleTransactionAt data idx = some t →
      pyTruthy (pyOrStr
        (extract_string_value (pySlice data (idx - 1500) (min data.length (idx + 1500))) bName)
        (extract_string_value (pySlice data (idx - 1500) (min data.length (idx + 1500)))
          bOriginalName)) = true ∧
      pyTruthy (extract_string_value (pySlice data (idx - 1500) (min data.length (idx + 1500)))
        bTransactionId) = true ∧
      pyTruthy (extract_string_value (pySlice data (idx - 1500) (min data.length (idx + 1500)))
        bOriginalDate) = true) ∧
    (∀ (data : List Nat) (idx : Nat),
      ¬(pyTruthy (pyOrStr
          (extract_string_value (pySlice data (idx - 1500) (min data.length (idx + 1500))) bName)
          (extract_string_value (pySlice data (idx - 1500) (min data.length (idx + 1500)))
            bOriginalName)) = true ∧
        pyTruthy (extract_string_value (pySlice data (idx - 1500) (min data.length (idx + 1500)))
          bTransactionId) = true ∧
        pyTruthy (extract_string_value (pySlice data (idx - 1500) (min data.length (idx + 1500)))
          bOriginalDate) = true) →
      assembleTransactionAt data idx = none) ∧
    (∀ (data : List Nat) (idx : Nat) (a : Account),
      assembleAccountAt data idx = some a →
      pyTruthy (extract_string_value (pySlice data (idx - 1000) (min data.length (idx + 1000)))
        bAccountId) = true ∧
      pyTruthy (pyOrStr
        (extract_string_value (pySlice data (idx - 1000) (min data.length (idx + 1000))) bName)
        (extract_string_value (pySlice data (idx - 1000) (min data.length (idx + 1000)))
          bOfficialName)) = true) ∧
    (∀ (data : List Nat) (idx : Nat),
      ¬(pyTruthy (extract_string_value (pySlice data (idx - 1000) (min data.length (idx + 1000)))
          bAccountId) = true ∧
        pyTruthy (pyOrStr
          (extract_string_value (pySlice data (idx - 1000) (min data.length (idx + 1000))) bName)
          (extract_string_value (pySlice data (idx - 1000) (min data.length (idx + 1000)))
            bOfficialName)) = true) →
      assembleAccountAt data idx = none) ∧
    (∀ dir : Directory, dir.pathExists = true → (∀ f ∈ dir.ldbFiles, f ≠ none) →
      (∃ l, decode_transactions dir = .ok l) ∧ (∃ l, decode_accounts dir = .ok l)) := by
  refine ⟨?_, ?_, ?_, ?_, ?_⟩
  · intro data idx t h
    exact assembleTransactionAt_some_inv h
  · intro data idx hnot
    cases h : assembleTransactionAt data idx with
    | none => rfl
    | some t => exact absurd (assembleTransactionAt_some_inv h) hnot
  · intro data idx a h
    exact assembleAccountAt_some_inv h
  · intro data idx hnot
    cases h : assembleAccountAt data idx with
    | none => rfl
    | some a => exact absurd (assembleAccountAt_some_inv h) hnot
  · intro dir hex hread
    obtain ⟨ts, hts⟩ := readAndScanTransactions_ok hread
    obtain ⟨as, has⟩ := readAndScanAccounts_ok hread
    refine ⟨⟨sortTransactionsByDateDesc (dedupTransactions ts), ?_⟩, ⟨dedupAccounts as, ?_⟩⟩
    · simp [decode_transactions, decodeTransactionsRaw, hex, hts, Except.map]
    · simp [decode_accounts, decodeAccountsRaw, hex, has, Except.map]

/-- C7 witness: over the demo directory (existing path, readable files) both
decoders return `ok` — candidate rejection never raises. -/
theorem assembler_presence_invariant_witness :
    (∃ l, decode_transactions demoDir = .ok l) ∧
    ∃ l, decode_accounts demoDir = .ok l :=
  assembler_presence_invariant.2.2.2.2 demoDir rfl (by decide)

theorem extract_double_value_shape {data : List Nat} {s m : Nat} {q : ℚ}
    (h : extract_double_value data s m = some q) : ∃ k : ℤ, q = mkRat k 100 := by
  unfold extract_double_value at h
  simp only [] at h
  obtain ⟨i, _, hcand⟩ := List.exists_of_findSome?_eq_some h
  unfold doubleCandAt at hcand
  by_cases htag : ((data.drop s).take m).getD i 0 = 0x19
  · rw [if_pos htag] at hcand
    rcases hdec : decodeDoubleLE ((((data.drop s).take m).drop (i+1)).take 8) with _ | v
    · rw [hdec] at hcand; exact Option.noConfusion hcand
    · rw [hdec] at hcand
      have hcand' : (if -10000000 < v ∧ v < 10000000 then some (round2 v) else none) =
          some q := hcand
      by_cases hr : -10000000 < v ∧ v < 10000000
      · rw [if_pos hr] at hcand'
        exact ⟨roundHalfEvenScaled (100 * v.num) v.den, (Option.some.injEq _ _).mp hcand'.symm⟩
      · rw [if_neg hr] at hcand'; exact Option.noConfusion hcand'
  · rw [if_neg htag] at hcand; exact Option.noConfusion hcand

theorem assembleTransactionAt_amount {data : List Nat} {idx : Nat} {t : Transaction}
    (h : assembleTransactionAt data idx = some t) :
    t.amount ≠ 0 ∧ |t.amount| ≤ 10000000 ∧ ∃ k : ℤ, t.amount = mkRat k 100 := by
  unfold assembleTransactionAt at h
  rcases hd : extract_double_value data (idx + 8) 20 with _ | amount
  · rw [hd] at h; exact Option.noConfusion h
  · rw [hd] at h
    simp only [] at h
    by_cases hz : amount = 0
    · rw [if_pos hz] at h; exact Option.noConfusion h
    · rw [if_neg hz] at h
      by_cases hcond : pyTruthy (pyOrStr (extract_string_value
            (pySlice data (idx - 1500) (min data.length (idx + 1500))) bName)
            (extract_string_value (pySlice data (idx - 1500) (min data.length (idx + 1500)))
              bOriginalName)) = true ∧
          pyTruthy (extract_string_value (pySlice data (idx - 1500) (min data.length (idx + 1500)))
            bTransactionId) = true ∧
          pyTruthy (extract_string_value (pySlice data (idx - 1500) (min data.length (idx + 1500)))
            bOriginalDate) = true
      · rw [if_pos hcond] at h
        unfold mkTransaction at h
        by_cases hval : validDateString ((extract_string_value
            (pySlice data (idx - 1500) (min data.length (idx + 1500)))
            bOriginalDate).getD "") = true ∧ |amount| ≤ 10000000
        · rw [if_pos hval] at h
          have h2 := (Option.some.injEq _ _).mp h
          have ht : t.amount = amount := by rw [← h2]
          obtain ⟨k, hk⟩ := extract_double_value_shape hd
          exact ⟨by rw [ht]; exact hz, by rw [ht]; exact hval.2, ⟨k, by rw [ht]; exact hk⟩⟩
        · rw [if_neg hval] at h; exact Option.noConfusion h
      · rw [if_neg hcond] at h; exact Option.noConfusion h

theorem mem_processTransactionFile {d : List Nat} {t : Transaction}
    (ht : t ∈ processTransactionFile d) : ∃ idx, assembleTransactionAt d idx = some t := by
  unfold processTransactionFile at ht
  by_cases hsig : bcontains d bAmount = true ∧ bcontains d bOriginalName = true
  · rw [if_pos hsig] at ht
    obtain ⟨idx, _, hidx⟩ := List.mem_filterMap.mp ht
    exact ⟨idx, hidx⟩
  · rw [if_neg hsig] at ht
    cases ht

theorem mem_readAndScanTransactions :
    ∀ {files : List (Option (List Nat))} {ts : List Transaction} {t : Transaction},
    readAndScanTransactions files = .ok ts → t ∈ ts →
    ∃ d idx, some d ∈ files ∧ assembleTransactionAt d idx = some t := by
  intro files
  induction files with
  | nil =>
    intro ts t hts ht
    rw [readAndScanTransactions] at hts
    cases hts
    cases ht
  | cons f rest ih =>
    intro ts t hts ht
    cases f with
    | none => exact Except.noConfusion hts
    | some d =>
      rw [readAndScanTransactions] at hts
      rcases hrec : readAndScanTransactions rest with e | ts'
      · rw [hrec] at hts; exact Except.noConfusion hts
      · rw [hrec] at hts
        cases hts
        rcases List.mem_append.mp ht with hl | hr
        · obtain ⟨idx, hidx⟩ := mem_processTransactionFile hl
          exact ⟨d, idx, List.mem_cons_self _ _, hidx⟩
        · obtain ⟨d', idx, hd', hidx⟩ := ih hrec hr
          exact ⟨d', idx, List.mem_cons_of_mem _ hd', hidx⟩

/-- C10 (amended): every transaction returned by `decode_transactions` has a
nonzero amount whose magnitude is at most `10_000_000` — equality with the
ceiling is reachable, since the strict plausibility test precedes the
2-decimal rounding and the pydantic validator only rejects amounts strictly
above the ceiling — and the amount is an exact multiple of `1/100`. -/
theorem decode_transactions_amount_bounds (dir : Directory) (l : List Transaction)
    (t : Transaction) (h : decode_transactions dir = .ok l) (ht : t ∈ l) :
    t.amount ≠ 0 ∧ |t.amount| ≤ 10000000 ∧ ∃ k : ℤ, t.amount = mkRat k 100 := by
  rcases hraw : decodeTransactionsRaw dir with e | cs
  · rw [decode_transactions, hraw] at h; exact Except.noConfusion h
  · have hl := decode_transactions_eq_sorted_dedup hraw h
    subst hl
    have hperm : List.Perm (sortTransactionsByDateDesc (dedupTransactions cs))
        (dedupTransactions cs) := List.perm_insertionSort _ _
    have htd : t ∈ dedupTransactions cs := hperm.mem_iff.mp ht
    have htc : t ∈ cs := List.mem_of_find?_eq_some (mem_dedupTransactionsAux htd).2
    rw [decodeTransactionsRaw] at hraw
    by_cases hex : dir.pathExists = true
    · rw [if_pos hex] at hraw
      obtain ⟨d, idx, _, hidx⟩ := mem_readAndScanTransactions hraw htc
      exact assembleTransactionAt_amount hidx
    · rw [if_neg hex] at hraw; exact Except.noConfusion hraw

/-- C10 counterexample: over `c10Dir` — whose amount bytes encode the IEEE
predecessor of `10_000_000`, which passes the strict plausibility test and
rounds up to exactly `10_000_000.0` — the decoded transaction violates
`|t.amount| < 10_000_000`. -/
theorem decode_transactions_amount_ceiling_counterexample :
    ¬(∀ (l : List Transaction) (t : Transaction),
        decode_transactions c10Dir = .ok l → t ∈ l →
        t.amount ≠ 0 ∧ |t.amount| < 10000000) := by
  intro hclaim
  have h := hclaim [txC10] txC10 (by decide) (by decide)
  have hno : ¬|txC10.amount| < 10000000 := by
    show ¬|(10000000 : ℚ)| < 10000000
    norm_num
  exact hno h.2

/-- C10 amended witness: the ceiling transaction `txC10` itself satisfies the
amended bounds, with `t.amount = 10_000_000` exactly. -/
theorem decode_transactions_amount_bounds_witness :
    txC10.amount ≠ 0 ∧ |txC10.amount| ≤ 10000000 ∧ ∃ k : ℤ, txC10.amount = mkRat k 100 :=
  decode_transactions_amount_bounds c10Dir [txC10] txC10 (by decide) (by decide)

/-- C6: `extract_double_value` scans its 20-byte window: the spec's example
buffer (tag `0x19` + little-endian IEEE-754 `12.34`) yields `12.34`; any
candidate whose decoded value has magnitude at or above the `10_000_000`
plausibility ceiling contributes nothing, so the scan continues past it
(concretely, `mixBuf`'s over-ceiling value at position 0 is passed over in
favour of the later `12.34`); and a window in which no candidate is
acceptable yields `none` — never an error. -/
theorem extract_double_value_spec :
    extract_double_value doubleBuf 0 20 = some (mkRat 617 50) ∧
    (∀ (chunk : List Nat) (i : Nat) (v : ℚ),
      chunk.getD i 0 = 0x19 →
      decodeDoubleLE ((chunk.drop (i+1)).take 8) = some v →
      (v ≤ -10000000 ∨ 10000000 ≤ v) →
      doubleCandAt chunk i = none) ∧
    (∀ (data : List Nat) (s m : Nat),
      (∀ i ∈ List.range (((data.drop s).take m).length - 9),
        doubleCandAt ((data.drop s).take m) i = none) →
      extract_double_value data s m = none) ∧
    extract_double_value mixBuf 0 20 = some (mkRat 617 50) ∧
    extract_double_value bigBuf 0 20 = none := by
  refine ⟨by decide, ?_, ?_, by decide, by decide⟩
  · intro chunk i v htag hdec hbig
    unfold doubleCandAt
    rw [if_pos htag, hdec]
    have : ¬(-10000000 < v ∧ v < 10000000) := by
      rcases hbig with hb | hb
      · intro hc; linarith [hc.1]
      · intro hc; linarith [hc.2]
    show (if -10000000 < v ∧ v < 10000000 then some (round2 v) else none) = none
    rw [if_neg this]
  · intro data s m h
    unfold extract_double_value
    simp only []
    exact List.findSome?_eq_none_iff.mpr h

/-- C6 witness: the over-ceiling candidate at position 0 of `mixBuf`
(value `12_340_000`) is rejected by the plausibility test. -/
theorem extract_double_value_spec_witness :
    doubleCandAt mixBuf 0 = none :=
  extract_double_value_spec.2.1 mixBuf 0 12340000 (by decide) (by decide)
    (Or.inr (by norm_num))

theorem stringCandAt_zero_eq (a r1 strLen b : Nat) (tail : List Nat) :
    stringCandAt (a :: r1 :: strLen :: b :: tail) 0 =
      if a = 0x8a ∧ r1 = 0x01 ∧ 0 < strLen ∧ strLen < 100 then
        match utf8Decode ((b :: tail).take strLen) with
        | some cs => if pyPrintable cs then some (String.mk cs) else none
        | none => none
      else none := by
  unfold stringCandAt
  by_cases h1 : a = 0x8a
  · by_cases h2 : r1 = 0x01
    · subst h1
      subst h2
      by_cases h3 : 0 < strLen ∧ strLen < 100
      · simp [h3]
      · simp [h3]
    · simp [h2]
  · simp [h1]

theorem findSome?_range_eq_scanWindowUpTo :
    ∀ l : List Nat, (List.range (l.length - 3)).findSome? (stringCandAt l) = scanWindowUpTo l := by
  intro l
  induction l with
  | nil => rfl
  | cons a rest ih =>
    rcases rest with _ | ⟨r1, rest1⟩
    · rfl
    rcases rest1 with _ | ⟨strLen, rest2⟩
    · rfl
    rcases rest2 with _ | ⟨b, tail⟩
    · rfl
    have hlen : (a :: r1 :: strLen :: b :: tail).length - 3 = tail.length + 1 := by simp
    have hhead : scanWindowUpTo (a :: r1 :: strLen :: b :: tail) =
        (stringCandAt (a :: r1 :: strLen :: b :: tail) 0).orElse
          (fun _ => scanWindowUpTo (r1 :: strLen :: b :: tail)) := by
      rw [stringCandAt_zero_eq]
      rfl
    rw [hlen, List.range_succ_eq_map, List.findSome?_cons, hhead]
    cases hc0 : stringCandAt (a :: r1 :: strLen :: b :: tail) 0 with
    | some s => rfl
    | none =>
      show List.findSome? (stringCandAt (a :: r1 :: strLen :: b :: tail))
          ((List.range tail.length).map Nat.succ) =
        scanWindowUpTo (r1 :: strLen :: b :: tail)
      rw [List.findSome?_map]
      exact ih

/-- C5 counterexample: "decodes exactly that many (`L`) subsequent bytes"
fails on the code.  On `truncBuf` (field `"f"`, tag `8a 01`, length byte
`05`, but only the two bytes `"ab"` remaining) `extract_string_value`
decodes the truncated slice and returns `"ab"`, whereas the scan that
decodes exactly `L` bytes finds no candidate. -/
theorem extract_string_exact_counterexample :
    ¬(∀ data field : List Nat, (findFrom data field 0).isSome = true →
        extract_string_value data field = stringScanExact data field) := by
  intro h
  have heq := h truncBuf [0x66] (by decide)
  have hne : extract_string_value truncBuf [0x66] ≠ stringScanExact truncBuf [0x66] := by decide
  exact hne heq

/-- C5 (amended): for every buffer, `extract_string_value` scans the 50-byte
window after the first occurrence of the field name for the tag `8a 01`,
reads the next byte as a length `L`, accepts only `0 < L < 100` (rejecting
and continuing the scan otherwise), decodes **up to** `L` subsequent bytes
as UTF-8 — truncated at the end of the window, with the scan visiting only
positions where the tag, the length byte and at least one data byte fit —
and returns the first plausible printable result (`stringScanUpTo`); in
particular the spec's `"amount"`/`"hello"` example returns `"hello"`. -/
theorem extract_string_value_scan_spec :
    (∀ data field : List Nat, extract_string_value data field = stringScanUpTo data field) ∧
    extract_string_value helloBuf bAmount = some "hello" := by
  constructor
  · intro data field
    unfold extract_string_value stringScanUpTo
    cases hf : findFrom data field 0 with
    | none => rfl
    | some idx =>
      simp only []
      exact findSome?_range_eq_scanWindowUpTo _
  · decide

/-- C5 amended witness: the equivalence and the concrete example at the
spec's `"amount"`/`"hello"` buffer. -/
theorem extract_string_value_scan_spec_witness :
    extract_string_value helloBuf bAmount = stringScanUpTo helloBuf bAmount ∧
    extract_string_value helloBuf bAmount = some "hello" :=
  ⟨extract_string_value_scan_spec.1 helloBuf bAmount, extract_string_value_scan_spec.2⟩
